import Mathlib

/-
Verification development for the mediago-core download orchestration
service.  The Go sources under internal/core are shallowly embedded as
executable Lean definitions: pure helpers become Lean functions, the task
queue becomes an explicit state machine, machine floats become rationals,
time stamps are passed explicitly (the Go code reads the clock), and the
external Go regexp engine is abstracted as matcher functions.
-/

namespace Mediago

/-- TaskID is an opaque string identifier (types.go). -/
abbrev TaskID := String

/-- Helper for substring search: does the pattern occur starting at some
position of the list? -/
def goContainsAux (pat : List Char) : List Char → Bool
  | [] => pat.isEmpty
  | c :: rest => pat.isPrefixOf (c :: rest) || goContainsAux pat rest

/-- Substring containment, modelling strings.Contains from the Go standard
library: the pattern occurs as a contiguous infix of the string. -/
def goContains (s pat : String) : Bool :=
  goContainsAux pat.toList s.toList

/-- Lower-casing of a string, modelling strings.ToLower character-wise (the
inputs exercised here are ASCII, where Go and Lean lower-casing agree).
String.toLower itself is avoided because its well-founded recursion does not
reduce in the kernel. -/
def goToLower (s : String) : String :=
  String.mk (s.toList.map Char.toLower)

/-- Embedding of guessExtFromURL (downloader.go): lower-case the URL and scan
for the first matching extension substring, defaulting to mp4. -/
def guessExtFromURL (u : String) : String :=
  let l := goToLower u
  if goContains l ".m3u8" then "m3u8"
  else if goContains l ".mp4" then "mp4"
  else if goContains l ".flv" then "flv"
  else if goContains l ".mkv" then "mkv"
  else "mp4"

/-- The guess always returns one of the four extension names. -/
theorem guessExt_range (u : String) :
    guessExtFromURL u = "m3u8" ∨ guessExtFromURL u = "mp4" ∨
    guessExtFromURL u = "flv" ∨ guessExtFromURL u = "mkv" := by
  simp only [guessExtFromURL]
  split
  · exact Or.inl rfl
  · split
    · exact Or.inr (Or.inl rfl)
    · split
      · exact Or.inr (Or.inr (Or.inl rfl))
      · split
        · exact Or.inr (Or.inr (Or.inr rfl))
        · exact Or.inr (Or.inl rfl)

/-- C8 counterexample: the extension guess is not idempotent.  For the URL
http://x/y.m3u8 the guess returns m3u8, but applying the guess to its own
result returns mp4 (the string m3u8 does not contain the substring dot-m3u8),
so the two applications disagree. -/
theorem C8_counterexample :
    guessExtFromURL "http://x/y.m3u8" = "m3u8" ∧
    guessExtFromURL (guessExtFromURL "http://x/y.m3u8") = "mp4" ∧
    guessExtFromURL (guessExtFromURL "http://x/y.m3u8") ≠
      guessExtFromURL "http://x/y.m3u8" := by
  refine ⟨rfl, rfl, ?_⟩
  decide

/-- C8 (amended): the extension guess is case-insensitive (two URLs with the
same lower-casing yield the same extension) and is a substring scan for the
four extensions with default mp4; it is not idempotent: applying the guess to
its own result always yields mp4, since none of the returned extension names
contains a dotted extension substring. -/
theorem C8_theorem :
    (∀ u v : String, goToLower u = goToLower v →
        guessExtFromURL u = guessExtFromURL v) ∧
    (∀ u : String,
        goContains (goToLower u) ".m3u8" = false →
        goContains (goToLower u) ".mp4" = false →
        goContains (goToLower u) ".flv" = false →
        goContains (goToLower u) ".mkv" = false →
        guessExtFromURL u = "mp4") ∧
    (∀ u : String, guessExtFromURL (guessExtFromURL u) = "mp4") := by
  refine ⟨?_, ?_, ?_⟩
  · intro u v h
    simp only [guessExtFromURL, h]
  · intro u h1 h2 h3 h4
    simp only [guessExtFromURL, h1, h2, h3, h4]
    rfl
  · intro u
    rcases guessExt_range u with h | h | h | h <;> rw [h] <;> rfl

/-- Witness for C8: instantiating the amended theorem at concrete URLs. -/
theorem C8_witness :
    guessExtFromURL "HTTP://X/Y.MP4" = guessExtFromURL "http://x/y.mp4" ∧
    guessExtFromURL "http://x/plain" = "mp4" ∧
    guessExtFromURL (guessExtFromURL "http://a.flv") = "mp4" := by
  refine ⟨C8_theorem.1 "HTTP://X/Y.MP4" "http://x/y.mp4" (by decide),
          C8_theorem.2.1 "http://x/plain" (by decide) (by decide) (by decide)
            (by decide),
          C8_theorem.2.2 "http://a.flv"⟩

/-! ## Progress throttle (progressTracker, unnamed part_021)

Go time.Time stamps are modelled as rational milliseconds passed explicitly
(the source reads the clock inside shouldUpdate and update); float64 percents
become rationals.  The records map becomes an association list. -/

/-- Association-list lookup, modelling Go map indexing. -/
def mapLookup {α : Type} (m : List (TaskID × α)) (k : TaskID) : Option α :=
  match m with
  | [] => none
  | (k1, v) :: rest => if k1 = k then some v else mapLookup rest k

/-- Association-list insertion/overwrite, modelling Go map assignment. -/
def mapInsert {α : Type} (m : List (TaskID × α)) (k : TaskID) (v : α) :
    List (TaskID × α) :=
  match m with
  | [] => [(k, v)]
  | (k1, v1) :: rest =>
    if k1 = k then (k, v) :: rest else (k1, v1) :: mapInsert rest k v

/-- Association-list deletion, modelling Go map delete. -/
def mapErase {α : Type} (m : List (TaskID × α)) (k : TaskID) :
    List (TaskID × α) :=
  m.filter (fun kv => kv.1 ≠ k)

/-- Per-task progress record (part_021). -/
structure progressRecord where
  lastPercent : ℚ
  lastSpeed : String
  lastUpdate : ℚ
  deriving DecidableEq, Repr

/-- The throttle state: per-task records (the mutex is irrelevant in the
sequential embedding). -/
structure progressTracker where
  records : List (TaskID × progressRecord)
  deriving DecidableEq, Repr

/-- Embedding of newTracker (part_021). -/
def newTracker : progressTracker := ⟨[]⟩

/-- Embedding of progressTracker.shouldUpdate (part_021): admit the first
call; otherwise refuse inside the 200 ms window, and outside it admit when
the percent delta reaches 0.5 or the speed string changed. -/
def progressTracker.shouldUpdate (pt : progressTracker) (id : TaskID)
    (now : ℚ) (percent : ℚ) (speed : String) : Bool :=
  match mapLookup pt.records id with
  | none => true
  | some rec =>
    let timeDiff := now - rec.lastUpdate
    if timeDiff < 200 then false
    else if (1 : ℚ) / 2 ≤ |percent - rec.lastPercent| then true
    else if speed ≠ rec.lastSpeed then true
    else false

/-- Embedding of progressTracker.update (part_021). -/
def progressTracker.update (pt : progressTracker) (id : TaskID)
    (now : ℚ) (percent : ℚ) (speed : String) : progressTracker :=
  ⟨mapInsert pt.records id ⟨percent, speed, now⟩⟩

/-- Embedding of progressTracker.remove (part_021). -/
def progressTracker.remove (pt : progressTracker) (id : TaskID) :
    progressTracker :=
  ⟨mapErase pt.records id⟩

/-- Suppression criterion as claim C1 words it: suppressed exactly when the
elapsed time is below 200 ms AND the percent delta is below 0.5 AND the speed
equals the last recorded one.  Stated for comparison with the source
definition above. -/
def specClaimSuppressed (pt : progressTracker) (id : TaskID)
    (now : ℚ) (percent : ℚ) (speed : String) : Bool :=
  match mapLookup pt.records id with
  | none => false
  | some rec =>
    decide (now - rec.lastUpdate < 200) &&
    decide (|percent - rec.lastPercent| < (1 : ℚ) / 2) &&
    decide (speed = rec.lastSpeed)

/-- The progress-admission loop of DownloaderSvc.Download (downloader.go):
for each incoming sample consult shouldUpdate and, when admitted, record the
update; count the admitted callbacks. -/
def runThrottleStream (id : TaskID)
    (calls : List (ℚ × ℚ × String)) : Nat :=
  (calls.foldl
    (fun acc c =>
      if acc.1.shouldUpdate id c.1 c.2.1 c.2.2 then
        (acc.1.update id c.1 c.2.1 c.2.2, acc.2 + 1)
      else acc)
    (newTracker, 0)).2

/-- The S3 sample stream: percents 1.0, 1.1, 1.2, 1.3, 1.4, 2.0 with one
speed string, all inside a 50 ms window. -/
def s3Stream : List (ℚ × ℚ × String) :=
  [(0, 1, "1 MB/s"), (10, 11 / 10, "1 MB/s"), (20, 12 / 10, "1 MB/s"),
   (30, 13 / 10, "1 MB/s"), (40, 14 / 10, "1 MB/s"), (50, 2, "1 MB/s")]

/-- C1 counterexample: inside the 200 ms window the code suppresses
unconditionally.  With a record at time 0, percent 1, a call 50 ms later with
percent 2 (delta 1.0, far above 0.5) and the same speed is still refused,
although the claim says such a call is admitted; and the S3 stream yields
exactly 1 admitted callback, not 2. -/
theorem C1_counterexample :
    progressTracker.shouldUpdate ⟨[("A", ⟨1, "1 MB/s", 0⟩)]⟩ "A" 50 2 "1 MB/s"
      = false ∧
    specClaimSuppressed ⟨[("A", ⟨1, "1 MB/s", 0⟩)]⟩ "A" 50 2 "1 MB/s"
      = false ∧
    runThrottleStream "A" s3Stream = 1 ∧
    runThrottleStream "A" s3Stream ≠ 2 := by
  refine ⟨?_, ?_, ?_, ?_⟩
  · norm_num [progressTracker.shouldUpdate, mapLookup]
  · norm_num [specClaimSuppressed, mapLookup]
  · norm_num [runThrottleStream, s3Stream, progressTracker.shouldUpdate,
      progressTracker.update, newTracker, mapLookup, mapInsert]
  · norm_num [runThrottleStream, s3Stream, progressTracker.shouldUpdate,
      progressTracker.update, newTracker, mapLookup, mapInsert]

/-- C1 (amended): a progress callback is admitted exactly when no record is
present (first call) or when the elapsed time reaches 200 ms AND (the
absolute percent delta reaches 0.5 OR the speed string differs); equivalently
it is suppressed whenever the elapsed time is below 200 ms, regardless of the
percent delta and speed.  Consequently the S3 stream (percents 1.0 to 2.0
inside 50 ms, one speed) admits exactly 1 callback. -/
theorem C1_theorem :
    (∀ (pt : progressTracker) (id : TaskID) (now percent : ℚ) (speed : String),
      pt.shouldUpdate id now percent speed = true ↔
        (mapLookup pt.records id = none ∨
         ∃ rec, mapLookup pt.records id = some rec ∧
           200 ≤ now - rec.lastUpdate ∧
           ((1 : ℚ) / 2 ≤ |percent - rec.lastPercent| ∨
            speed ≠ rec.lastSpeed))) ∧
    runThrottleStream "A" s3Stream = 1 := by
  constructor
  · intro pt id now percent speed
    cases h : mapLookup pt.records id with
    | none => simp [progressTracker.shouldUpdate, h]
    | some rec =>
      simp only [progressTracker.shouldUpdate, h]
      split_ifs with h1 h2 h3
      · simp [h1]
      · simp only [if_pos rfl]
        simp [not_lt.mp h1, h2]
        exact Or.inl (by rwa [one_div] at h2)
      · simp [not_lt.mp h1, h3]
      · push_neg at h3
        simp [h1, h2, h3, not_lt.mp h1]
        rw [← one_div]
        exact not_le.mp h2
  · norm_num [runThrottleStream, s3Stream, progressTracker.shouldUpdate,
      progressTracker.update, newTracker, mapLookup, mapInsert]

/-! ## Schema types and argv construction (part_011, downloader.go)

The Args map of a schema becomes an association list; Go map iteration order
is unspecified, which the argv theorem captures by quantifying over all
permutations of that list. -/

/-- Embedding of ArgSpec (part_011).  The Go field Postfix is renamed to
postfixVal for the Lean development. -/
structure ArgSpec where
  ArgsName : List String
  postfixVal : String
  deriving DecidableEq, Repr

/-- Embedding of ConsoleReg (part_011): five optional regex source strings,
empty string meaning absent. -/
structure ConsoleReg where
  Percent : String
  Speed : String
  Error : String
  Start : String
  IsLive : String
  deriving DecidableEq, Repr

/-- Embedding of Schema (part_011). -/
structure Schema where
  typeName : String
  Args : List (String × ArgSpec)
  consoleReg : ConsoleReg
  deriving DecidableEq, Repr

/-- Embedding of SchemaList (part_011). -/
structure SchemaList where
  Schemas : List Schema
  deriving DecidableEq, Repr

/-- Embedding of SchemaList.GetByType (part_011): first schema whose type
matches. -/
def SchemaList.GetByType (sl : SchemaList) (t : String) : Option Schema :=
  sl.Schemas.find? (fun s => s.typeName = t)

/-- Embedding of DownloadParams (types.go). -/
structure DownloadParams where
  ID : TaskID
  typeName : String
  URL : String
  LocalDir : String
  Name : String
  DeleteSegments : Bool
  Headers : List String
  Proxy : String
  Folder : String
  deriving DecidableEq, Repr

/-- Path join, modelling Go filepath.Join on already-clean non-empty
segments (the only shape the dispatcher produces: joining the base directory
with a non-empty folder name). -/
def filepathJoin (a b : String) : String :=
  if a = "" then b else if b = "" then a else a ++ "/" ++ b

/-- Embedding of the pushKV helper inside buildArgs (downloader.go): emit
each flag followed by the value. -/
def pushKV (keys : List String) (val : String) : List String :=
  (keys.map (fun k => [k, val])).flatten

/-- One iteration of the buildArgs switch (downloader.go): the tokens emitted
for a single logical key.  Unknown keys emit nothing. -/
def emitArg (p : DownloadParams) (key : String) (spec : ArgSpec) :
    List String :=
  match key with
  | "url" => spec.ArgsName ++ [p.URL]
  | "localDir" =>
    let final := if p.Folder ≠ "" then filepathJoin p.LocalDir p.Folder
                 else p.LocalDir
    pushKV spec.ArgsName final
  | "name" =>
    let name :=
      if spec.postfixVal = "@@AUTO@@" then
        p.Name ++ "." ++ guessExtFromURL p.URL
      else if spec.postfixVal ≠ "" then p.Name ++ spec.postfixVal
      else p.Name
    pushKV spec.ArgsName name
  | "headers" =>
    (p.Headers.map (fun h => (spec.ArgsName.map (fun k => [k, h])).flatten)).flatten
  | "deleteSegments" =>
    if p.DeleteSegments then pushKV spec.ArgsName "true"
    else pushKV spec.ArgsName "false"
  | "proxy" =>
    if p.Proxy ≠ "" then pushKV spec.ArgsName p.Proxy else []
  | "__common__" => spec.ArgsName
  | _ => []

/-- Embedding of DownloaderSvc.buildArgs (downloader.go): concatenation of
the per-key emissions over the Args association list; the list order stands
for one arbitrary Go map iteration order. -/
def buildArgs (p : DownloadParams) (s : Schema) : List String :=
  (s.Args.map (fun ks => emitArg p ks.1 ks.2)).flatten

/-- A schema shaped like S4 with a given argument-map iteration order. -/
def s4SchemaWith (args : List (String × ArgSpec)) : Schema :=
  { typeName := "m3u8", Args := args, consoleReg := ⟨"", "", "", "", ""⟩ }

/-- The S4 schema of claim C7 in one particular iteration order. -/
def s4Schema : Schema :=
  s4SchemaWith
    [("url", ⟨["-u"], ""⟩), ("localDir", ⟨["-d"], ""⟩),
     ("name", ⟨["-n"], "@@AUTO@@"⟩), ("deleteSegments", ⟨["--del"], ""⟩),
     ("__common__", ⟨["--quiet"], ""⟩)]

/-- The S4 params/config of claim C7 (the Go code carries the runtime
config inside DownloadParams). -/
def s4Params : DownloadParams :=
  { ID := "S4", typeName := "m3u8", URL := "http://x/y.m3u8",
    LocalDir := "/out", Name := "movie", DeleteSegments := true,
    Headers := [], Proxy := "", Folder := "films" }

/-- The multiset of argv tokens claim C7 expects. -/
def s4Expected : Multiset String :=
  ↑["-u", "http://x/y.m3u8", "-d", "/out/films", "-n", "movie.m3u8",
    "--del", "true", "--quiet"]

/-- C7: for every iteration order of the S4 schema arguments map, buildArgs
produces exactly the claimed multiset of tokens. -/
theorem C7_theorem (args : List (String × ArgSpec))
    (h : args.Perm s4Schema.Args) :
    (↑(buildArgs s4Params (s4SchemaWith args)) : Multiset String)
      = s4Expected := by
  have hp : (buildArgs s4Params (s4SchemaWith args)).Perm
      (buildArgs s4Params s4Schema) :=
    List.Perm.flatten
      (List.Perm.map (fun ks : String × ArgSpec => emitArg s4Params ks.1 ks.2) h)
  have h2 : (↑(buildArgs s4Params (s4SchemaWith args)) : Multiset String)
      = ↑(buildArgs s4Params s4Schema) := Quot.sound hp
  rw [h2]
  rfl

/-- Witness for C7: the identity iteration order. -/
theorem C7_witness :
    (↑(buildArgs s4Params (s4SchemaWith s4Schema.Args)) : Multiset String)
      = s4Expected :=
  C7_theorem s4Schema.Args (List.Perm.refl _)

/-! ## PTY runner line framing (runner/pty.go)

The custom bufio.Scanner split function of readPTYOutput is embedded as a
pure function over the complete character stream: the chunked-read protocol
of bufio reduces to this function once the whole stream is available. -/

/-- Embedding of the split function inside PTYRunner.readPTYOutput (pty.go):
a newline ends a line; a carriage return ends a line and additionally
swallows an immediately following newline; the final unterminated segment is
emitted when non-empty. -/
def splitPTY : List Char → List (List Char)
  | [] => []
  | '\n' :: rest => [] :: splitPTY rest
  | '\r' :: '\n' :: rest => [] :: splitPTY rest
  | '\r' :: rest => [] :: splitPTY rest
  | c :: rest =>
    match splitPTY rest with
    | [] => [[c]]
    | l :: ls => (c :: l) :: ls

/-- Embedding of decodeToUTF8 (part_008) restricted to its valid-UTF-8
passthrough branch: the GB18030/GBK fallbacks only concern byte sequences
that are not valid UTF-8, which cannot arise for the already-decoded
character streams considered here. -/
def decodeToUTF8 (cs : List Char) : String :=
  String.mk cs

/-- Embedding of the scan loop of PTYRunner.readPTYOutput (pty.go): the
sequence of strings handed to the per-line callback, skipping empty decoded
lines. -/
def readPTYOutput (stream : List Char) : List String :=
  ((splitPTY stream).map decodeToUTF8).filter (fun s => s ≠ "")

/-- A character is not a line terminator for the PTY splitter. -/
def noTerm (l : List Char) : Prop :=
  ∀ c ∈ l, c ≠ '\n' ∧ c ≠ '\r'

/-- Unfolding lemma for splitPTY at a non-terminator character. -/
theorem splitPTY_cons_ne (c : Char) (cs : List Char)
    (h1 : c ≠ '\n') (h2 : c ≠ '\r') :
    splitPTY (c :: cs) =
      match splitPTY cs with
      | [] => [[c]]
      | l :: ls => (c :: l) :: ls := by
  simp [splitPTY, h1, h2]

/-- A newline after a terminator-free segment frames exactly that segment. -/
theorem splitPTY_lf (l rest : List Char) (h : noTerm l) :
    splitPTY (l ++ '\n' :: rest) = l :: splitPTY rest := by
  induction l with
  | nil => simp [splitPTY]
  | cons a l1 ih =>
    have ha := h a (by simp)
    have hrec := ih (fun c hc => h c (by simp [hc]))
    rw [List.cons_append, splitPTY_cons_ne a _ ha.1 ha.2, hrec]

/-- A carriage-return-newline pair frames exactly the preceding segment. -/
theorem splitPTY_crlf (l rest : List Char) (h : noTerm l) :
    splitPTY (l ++ '\r' :: '\n' :: rest) = l :: splitPTY rest := by
  induction l with
  | nil => simp [splitPTY]
  | cons a l1 ih =>
    have ha := h a (by simp)
    have hrec := ih (fun c hc => h c (by simp [hc]))
    rw [List.cons_append, splitPTY_cons_ne a _ ha.1 ha.2, hrec]

/-- A bare carriage return (not followed by a newline) frames exactly the
preceding segment. -/
theorem splitPTY_cr (l rest : List Char) (h : noTerm l)
    (hr : rest.head? ≠ some '\n') :
    splitPTY (l ++ '\r' :: rest) = l :: splitPTY rest := by
  induction l with
  | nil =>
    cases rest with
    | nil => simp [splitPTY]
    | cons r rs =>
      have hrn : r ≠ '\n' := by
        intro e
        exact hr (by rw [e]; rfl)
      simp [splitPTY, hrn]
  | cons a l1 ih =>
    have ha := h a (by simp)
    have hrec := ih (fun c hc => h c (by simp [hc]))
    rw [List.cons_append, splitPTY_cons_ne a _ ha.1 ha.2, hrec]

/-- C9: the runner splitter treats a newline, a carriage-return-newline
pair, and a bare carriage return as line terminators, and on the S5 byte
stream the per-line callback fires exactly three times with the three
repaint lines in order. -/
theorem C9_theorem :
    (∀ l rest : List Char, noTerm l →
      splitPTY (l ++ '\n' :: rest) = l :: splitPTY rest) ∧
    (∀ l rest : List Char, noTerm l →
      splitPTY (l ++ '\r' :: '\n' :: rest) = l :: splitPTY rest) ∧
    (∀ l rest : List Char, noTerm l → rest.head? ≠ some '\n' →
      splitPTY (l ++ '\r' :: rest) = l :: splitPTY rest) ∧
    readPTYOutput
        "downloading...\rdownloading 50%\rdownloading 100%\n".toList =
      ["downloading...", "downloading 50%", "downloading 100%"] :=
  ⟨splitPTY_lf, splitPTY_crlf, splitPTY_cr, rfl⟩

/-- Witness for C9: the framing equations applied to concrete segments. -/
theorem C9_witness :
    splitPTY ("ab".toList ++ '\n' :: "cd".toList)
      = "ab".toList :: splitPTY "cd".toList ∧
    splitPTY ("ab".toList ++ '\r' :: '\n' :: "cd".toList)
      = "ab".toList :: splitPTY "cd".toList ∧
    splitPTY ("ab".toList ++ '\r' :: "cd".toList)
      = "ab".toList :: splitPTY "cd".toList :=
  ⟨C9_theorem.1 "ab".toList "cd".toList (by intro c hc; revert c; decide),
   C9_theorem.2.1 "ab".toList "cd".toList (by intro c hc; revert c; decide),
   C9_theorem.2.2.1 "ab".toList "cd".toList (by intro c hc; revert c; decide)
     (by decide)⟩

/-! ## Console line parser (lineParser, unnamed part_021; parser package,
unnamed part_009)

A compiled Go regexp is represented abstractly by its observable behaviour:
a function returning capture group 1 of FindStringSubmatch (none when the
pattern does not match or has no group), and a Boolean MatchString
predicate. -/

/-- Embedding of parseState (part_021). -/
structure parseState where
  ready : Bool
  percent : ℚ
  speed : String
  isLive : Bool
  deriving DecidableEq, Repr

/-- Embedding of lineParser (part_021): five optional compiled regexes,
each represented by its matching behaviour. -/
structure lineParser where
  percentReg : Option (String → Option String)
  speedReg : Option (String → Option String)
  errorReg : Option (String → Bool)
  startReg : Option (String → Bool)
  isLiveReg : Option (String → Bool)

/-- MatchString on an optional regex, modelling the Go idiom of a nil check
followed by MatchString. -/
def optMatch (r : Option (String → Bool)) (line : String) : Bool :=
  match r with
  | some f => f line
  | none => false

/-- Trimming of leading and trailing whitespace, modelling
strings.TrimSpace on the ASCII inputs considered here. -/
def goTrimSpace (s : String) : String :=
  String.mk
    (((s.toList.dropWhile Char.isWhitespace).reverse.dropWhile
        Char.isWhitespace).reverse)

/-- Numeric value of a digit string. -/
def digitsVal (cs : List Char) : ℕ :=
  cs.foldl (fun acc c => acc * 10 + (c.toNat - 48)) 0

/-- Embedding of strconv.ParseFloat restricted to plain unsigned decimal
numerals without exponent, the only capture shapes exercised by the schema
percent regexes; other inputs are rejected. -/
def goParseFloat (s : String) : Option ℚ :=
  match s.toList.span Char.isDigit with
  | (intPart, []) =>
    if intPart.isEmpty then none else some (digitsVal intPart)
  | (intPart, dot :: fracPart) =>
    if dot = '.' ∧ fracPart.all Char.isDigit ∧
        (intPart.isEmpty = false ∨ fracPart.isEmpty = false) then
      some ((digitsVal intPart : ℚ) +
        (digitsVal fracPart : ℚ) / (10 : ℚ) ^ fracPart.length)
    else none

/-- Embedding of lineParser.parse (part_021), the parser the dispatcher
instantiates: error line short-circuits; isLive is sticky; a start match
before ready reports ready; percent and speed captures update the state in
place, implicitly promoting to ready on first capture.  The percent regex is
applied to the line exactly as received. -/
def lineParser.parse (lp : lineParser) (line : String) (state : parseState) :
    (String × String) × parseState :=
  if optMatch lp.errorReg line then (("", line), state)
  else
    let state1 :=
      if optMatch lp.isLiveReg line then { state with isLive := true }
      else state
    if state1.ready = false ∧ optMatch lp.startReg line = true then
      (("ready", ""), state1)
    else
      let pm : Option ℚ :=
        match lp.percentReg with
        | none => none
        | some f =>
          match f line with
          | none => none
          | some cap => goParseFloat cap
      let state2 :=
        match pm with
        | some q => { state1 with percent := q }
        | none => state1
      let sm : Option String :=
        match lp.speedReg with
        | none => none
        | some f => f line
      let state3 :=
        match sm with
        | some cap => { state2 with speed := goTrimSpace cap }
        | none => state2
      if state3.ready = false ∧ (pm.isSome || sm.isSome) = true then
        (("ready", ""), { state3 with ready := true })
      else
        (("", ""), state3)

/-- Embedding of processBackspaces (parser package, part_009): each
backspace character deletes the previously accumulated rune, if any. -/
def processBackspaces (s : String) : String :=
  String.mk
    (s.toList.foldl
      (fun result ch =>
        if ch = '\x08' then result.dropLast else result ++ [ch])
      [])

/-- Embedding of LineParser.Parse from the parser package (part_009): the
same algorithm as lineParser.parse except that, when a percent regex is
configured, the line is first replaced by its backspace-resolved form (the
Go code reassigns the line variable, so the speed regex then also sees the
resolved line). -/
def parserPkgParse (lp : lineParser) (line : String) (state : parseState) :
    (String × String) × parseState :=
  if optMatch lp.errorReg line then (("", line), state)
  else
    let state1 :=
      if optMatch lp.isLiveReg line then { state with isLive := true }
      else state
    if state1.ready = false ∧ optMatch lp.startReg line = true then
      (("ready", ""), state1)
    else
      let line2 :=
        match lp.percentReg with
        | some _ => processBackspaces line
        | none => line
      let pm : Option ℚ :=
        match lp.percentReg with
        | none => none
        | some f =>
          match f line2 with
          | none => none
          | some cap => goParseFloat cap
      let state2 :=
        match pm with
        | some q => { state1 with percent := q }
        | none => state1
      let sm : Option String :=
        match lp.speedReg with
        | none => none
        | some f => f line2
      let state3 :=
        match sm with
        | some cap => { state2 with speed := goTrimSpace cap }
        | none => state2
      if state3.ready = false ∧ (pm.isSome || sm.isSome) = true then
        (("ready", ""), { state3 with ready := true })
      else
        (("", ""), state3)

/-- Capture function of the Go regexp ([0-9]+)% as FindStringSubmatch group
1: the leftmost position whose maximal digit run is immediately followed by
a percent sign (a backtracked shorter run is never followed by the percent
sign there, since the following character would be a digit). -/
def findPercentCapture : List Char → Option String
  | [] => none
  | c :: rest =>
    let run := (c :: rest).takeWhile Char.isDigit
    if run.isEmpty = false ∧ ((c :: rest).drop run.length).head? = some '%'
    then some (String.mk run)
    else findPercentCapture rest

/-- The percent matcher used in the C5 scenario. -/
def digitsPercentReg (s : String) : Option String :=
  findPercentCapture s.toList

/-- A parser configured with only the percent regex. -/
def lpDigits : lineParser :=
  ⟨some digitsPercentReg, none, none, none, none⟩

/-- The initial state used by the dispatcher once ready. -/
def st0 : parseState := ⟨true, 0, "", false⟩

/-- C5 counterexample: the parser the dispatcher uses applies the percent
regex to the raw line without resolving backspaces.  On the line
12-backspace-3-percent the rendered form is 13 percent, yet the dispatcher
parser extracts percent 3 (the digits left standing before the percent sign
in the raw bytes), while parsing the rendered line extracts 13. -/
theorem C5_counterexample :
    processBackspaces "12\x083%" = "13%" ∧
    digitsPercentReg "12\x083%" = some "3" ∧
    digitsPercentReg (processBackspaces "12\x083%") = some "13" ∧
    (lineParser.parse lpDigits "12\x083%" st0).2.percent ≠
      (lineParser.parse lpDigits (processBackspaces "12\x083%") st0).2.percent
    := by
  refine ⟨rfl, rfl, rfl, ?_⟩
  have h1 : (lineParser.parse lpDigits "12\x083%" st0).2.percent
      = ((3 : ℕ) : ℚ) := rfl
  have h2 : (lineParser.parse lpDigits (processBackspaces "12\x083%")
      st0).2.percent = ((13 : ℕ) : ℚ) := rfl
  rw [h1, h2]
  norm_num

/-- C5 (amended): the line parser used by the dispatcher (lineParser.parse,
the core package) does not resolve backspaces: the percent regex sees the
raw line, so the extracted percent may differ from the rendered value.
The backspace resolution belongs only to the parser-package variant
(LineParser.Parse): for a percent-only parser, that variant on any line
coincides with the dispatcher parser applied to the backspace-resolved
line. -/
theorem C5_theorem :
    (∀ (f : String → Option String) (line : String) (st : parseState),
      parserPkgParse ⟨some f, none, none, none, none⟩ line st
        = lineParser.parse ⟨some f, none, none, none, none⟩
            (processBackspaces line) st) ∧
    (lineParser.parse lpDigits "12\x083%" st0).2.percent ≠
      (lineParser.parse lpDigits (processBackspaces "12\x083%") st0).2.percent
    := by
  constructor
  · intro f line st
    rfl
  · have h1 : (lineParser.parse lpDigits "12\x083%" st0).2.percent
        = ((3 : ℕ) : ℚ) := rfl
    have h2 : (lineParser.parse lpDigits (processBackspaces "12\x083%")
        st0).2.percent = ((13 : ℕ) : ℚ) := rfl
    rw [h1, h2]
    norm_num

/-! ## Schema loading and the downloader dispatcher (part_011,
downloader.go)

Go regexp.Compile is external; it is abstracted as a partial compile
function producing matcher behaviour.  A concrete instance below models the
one fact the claims depend on: some patterns fail to compile. -/

/-- A compiled Go regexp, represented by its observable behaviour. -/
structure GoRegexp where
  findSubmatch : String → Option String
  matchString : String → Bool

/-- Compile one optional pattern field, modelling the Go idiom of newLineParser
(part_021): an empty pattern is absent, a failing compile aborts with an
error. -/
def compileField (compile : String → Option GoRegexp) (pat : String) :
    Except String (Option GoRegexp) :=
  if pat = "" then .ok none
  else
    match compile pat with
    | some r => .ok (some r)
    | none => .error ("invalid regex: " ++ pat)

/-- Embedding of newLineParser (part_021): compile the five optional
patterns in source order; the first failure aborts. -/
def newLineParser (compile : String → Option GoRegexp) (cr : ConsoleReg) :
    Except String lineParser := do
  let p ← compileField compile cr.Percent
  let sp ← compileField compile cr.Speed
  let er ← compileField compile cr.Error
  let st ← compileField compile cr.Start
  let lv ← compileField compile cr.IsLive
  return ⟨p.map (fun r => r.findSubmatch), sp.map (fun r => r.findSubmatch),
          er.map (fun r => r.matchString), st.map (fun r => r.matchString),
          lv.map (fun r => r.matchString)⟩

/-- Embedding of LoadSchemasFromJSON (part_011).  Reading the file and JSON
unmarshalling are I/O and are abstracted as the given outcome; the loader
performs no further validation of the decoded schemas and in particular
compiles no regular expression. -/
def LoadSchemasFromJSON (raw : Except String SchemaList) :
    Except String SchemaList :=
  match raw with
  | .error e => .error e
  | .ok sl => .ok sl

/-- Error string of ErrUnsupportedType (downloader.go). -/
def ErrUnsupportedType : String := "unsupported download type"

/-- Error string of ErrBinNotFound (downloader.go). -/
def ErrBinNotFound : String := "binary not found for type"

/-- Embedding of the control flow of DownloaderSvc.Download (downloader.go)
up to and including the runner invocation: schema lookup, binary lookup,
line-parser construction (where regex compilation happens), argv build, and
propagation of the runner outcome, which is passed in as a parameter since
running the child is I/O. -/
def DownloadModel (compile : String → Option GoRegexp) (schemas : SchemaList)
    (binMap : List (String × String)) (p : DownloadParams)
    (runErr : Option String) : Except String Unit :=
  match schemas.GetByType p.typeName with
  | none => .error ErrUnsupportedType
  | some schema =>
    match mapLookup binMap p.typeName with
    | none => .error ErrBinNotFound
    | some bin =>
      if bin = "" then .error ErrBinNotFound
      else
        match newLineParser compile schema.consoleReg with
        | .error e => .error e
        | .ok _lp =>
          let _args := buildArgs p schema
          match runErr with
          | some e => .error e
          | none => .ok ()

/-- Parenthesis balance check used by the compile model. -/
def parensBalancedAux : List Char → ℕ → Bool
  | [], depth => depth = 0
  | c :: rest, depth =>
    if c = '(' then parensBalancedAux rest (depth + 1)
    else if c = ')' then
      (if depth = 0 then false else parensBalancedAux rest (depth - 1))
    else parensBalancedAux rest depth

/-- Concrete model of Go regexp.Compile, to the extent this development
needs it: compilation fails on patterns with unbalanced parentheses (Go
reports ErrMissingParen or ErrUnexpectedParen for them); the matching
behaviour of successfully compiled patterns is irrelevant to the loading
claims, so trivial matchers are returned. -/
def regexpCompileModel (pat : String) : Option GoRegexp :=
  if parensBalancedAux pat.toList 0 then
    some ⟨fun _ => none, fun _ => false⟩
  else none

/-- A ConsoleReg with a malformed percent pattern. -/
def badCR : ConsoleReg := ⟨"(", "", "", "", ""⟩

/-- A schema carrying the malformed pattern. -/
def badSchema : Schema :=
  { typeName := "m3u8", Args := [], consoleReg := badCR }

/-- A schema source containing the malformed pattern. -/
def badSchemaList : SchemaList := ⟨[badSchema]⟩

/-- Params addressing the bad schema. -/
def c2Params : DownloadParams :=
  { ID := "T", typeName := "m3u8", URL := "u", LocalDir := "", Name := "n",
    DeleteSegments := false, Headers := [], Proxy := "", Folder := "" }

/-- C2 counterexample: a schema source whose percent pattern is a lone open
parenthesis (which Go regexp.Compile rejects) loads successfully, so the
load is not aborted by a malformed regex; and a Download call against the
loaded schema then fails exactly at regex compilation. -/
theorem C2_counterexample :
    regexpCompileModel "(" = none ∧
    LoadSchemasFromJSON (.ok badSchemaList) = .ok badSchemaList ∧
    newLineParser regexpCompileModel badCR = .error "invalid regex: (" ∧
    DownloadModel regexpCompileModel badSchemaList [("m3u8", "/bin/dl")]
      c2Params none = .error "invalid regex: (" :=
  ⟨rfl, rfl, rfl, rfl⟩

/-- C2 (amended): LoadSchemasFromJSON performs no regex compilation at all —
the load succeeds or fails with the read/unmarshal outcome, independently of
pattern validity; regexes compile lazily inside Download via newLineParser,
whose failure aborts the Download call (before the child is run) with the
compile error. -/
theorem C2_theorem :
    (∀ raw : Except String SchemaList, LoadSchemasFromJSON raw = raw) ∧
    (∀ (compile : String → Option GoRegexp) (binMap : List (String × String))
        (p : DownloadParams) (runErr : Option String) (sl : SchemaList)
        (schema : Schema) (bin : String) (e : String),
      sl.GetByType p.typeName = some schema →
      mapLookup binMap p.typeName = some bin →
      bin ≠ "" →
      newLineParser compile schema.consoleReg = .error e →
      DownloadModel compile sl binMap p runErr = .error e) := by
  constructor
  · intro raw
    cases raw <;> rfl
  · intro compile binMap p runErr sl schema bin e h1 h2 h3 h4
    unfold DownloadModel
    rw [h1, h2]
    simp only [if_neg h3, h4]

/-- Witness for C2: the amended theorem applied to the concrete bad schema
source. -/
theorem C2_witness :
    LoadSchemasFromJSON (.ok badSchemaList) = .ok badSchemaList ∧
    DownloadModel regexpCompileModel badSchemaList [("m3u8", "/bin/x")]
      c2Params none = .error "invalid regex: (" :=
  ⟨C2_theorem.1 (.ok badSchemaList),
   C2_theorem.2 regexpCompileModel [("m3u8", "/bin/x")] c2Params none
     badSchemaList badSchema "/bin/x" "invalid regex: (" rfl rfl
     (by decide) rfl⟩

/-! ## Task queue and scheduler (queue.go)

The TaskQueue becomes an explicit state machine.  Each public operation and
each phase of the driver goroutine (execute) is one transition; driver
phases are guarded by membership of the task id in the active set, since the
driver exists exactly while its cancel handle is registered.  Events model
the lifecycle callback invocations. -/

/-- Embedding of TaskStatus (types.go). -/
inductive TaskStatus where
  | pending
  | downloading
  | success
  | failed
  | stopped
  deriving DecidableEq, Repr

/-- Embedding of TaskInfo (types.go). -/
structure TaskInfo where
  ID : TaskID
  typeName : String
  URL : String
  Name : String
  Status : TaskStatus
  Percent : ℚ
  Speed : String
  IsLive : Bool
  Error : String
  deriving DecidableEq, Repr

/-- A Go error as the driver classification sees it: canceled stands for any
error whose errors.Is chain contains context.Canceled; other carries the
message returned by the Error method. -/
inductive GoErr where
  | canceled
  | other (msg : String)
  deriving DecidableEq, Repr

/-- Embedding of the TaskQueue state (queue.go): the concurrency cap, the
FIFO pending queue, the key set of the active map (cancel handles are not
data), and the task-info map. -/
structure QState where
  maxRunner : ℤ
  queue : List DownloadParams
  active : List TaskID
  tasks : List (TaskID × TaskInfo)
  deriving DecidableEq, Repr

/-- Embedding of NewTaskQueue (queue.go). -/
def newTaskQueue (n : ℤ) : QState := ⟨n, [], [], []⟩

/-- The ids currently in the pending queue. -/
def queueIDs (s : QState) : List TaskID :=
  s.queue.map (fun p => p.ID)

/-- Key-set insertion, modelling assignment into the active map: an existing
key is overwritten (the key set is unchanged), a new key is added. -/
def activeInsert (a : List TaskID) (id : TaskID) : List TaskID :=
  if id ∈ a then a else a ++ [id]

/-- Pointwise update of a map entry, modelling mutation through the stored
pointer guarded by a presence check (the Go idiom if task, ok := m[id]). -/
def mapAdjust {α : Type} : List (TaskID × α) → TaskID → (α → α) →
    List (TaskID × α)
  | [], _, _ => []
  | (k1, v) :: rest, k, f =>
    if k1 = k then (k1, f v) :: mapAdjust rest k f
    else (k1, v) :: mapAdjust rest k f

/-- The fresh task record Enqueue installs (queue.go). -/
def initTaskInfo (p : DownloadParams) : TaskInfo :=
  ⟨p.ID, p.typeName, p.URL, p.Name, .pending, 0, "", false, ""⟩

/-- Embedding of TaskQueue.Enqueue (queue.go): install a pending record;
under capacity promote it to downloading, register the cancel handle and
return downloading, else push to the pending tail and return pending. -/
def enqueueStep (s : QState) (p : DownloadParams) : QState × TaskStatus :=
  let tasks1 := mapInsert s.tasks p.ID (initTaskInfo p)
  if (s.active.length : ℤ) < s.maxRunner then
    ({ s with
        tasks := (mapAdjust tasks1 p.ID
          (fun t => { t with Status := .downloading })),
        active := activeInsert s.active p.ID },
     .downloading)
  else
    ({ s with tasks := tasks1, queue := s.queue ++ [p] }, .pending)

/-- Embedding of TaskQueue.tryRun (queue.go): a single admission step; when
a slot is free and the queue is non-empty, pop the head, mark it
downloading, and register it as active. -/
def tryRunStep (s : QState) : QState :=
  if (s.active.length : ℤ) < s.maxRunner then
    match s.queue with
    | [] => s
    | task :: rest =>
      { s with
          queue := rest,
          tasks := (mapAdjust s.tasks task.ID
            (fun t => { t with Status := .downloading })),
          active := activeInsert s.active task.ID }
  else s

/-- Embedding of TaskQueue.SetMaxRunner (queue.go): update the cap, then one
tryRun step. -/
def setMaxRunnerStep (s : QState) (n : ℤ) : QState :=
  tryRunStep { s with maxRunner := n }

/-- The return value of TaskQueue.Stop (queue.go): ok for an active id
(whose cancel handle is invoked), the task-not-found error otherwise.  Stop
itself never mutates the queue state. -/
def stopStep (s : QState) (id : TaskID) : Except String Unit :=
  if id ∈ s.active then .ok () else .error "task not found"

/-- Lifecycle callback invocations (queue.go). -/
inductive Ev where
  | start (id : TaskID)
  | success (id : TaskID)
  | failed (id : TaskID) (msg : String)
  | stopped (id : TaskID)
  | progress (id : TaskID) (percent : ℚ) (speed : String) (isLive : Bool)
  | message (id : TaskID) (msg : String)
  deriving DecidableEq, Repr

/-- The task id an event belongs to. -/
def Ev.owner : Ev → TaskID
  | .start id => id
  | .success id => id
  | .failed id _ => id
  | .stopped id => id
  | .progress id _ _ _ => id
  | .message id _ => id

/-- Opening phase of TaskQueue.execute (queue.go): set the status to
downloading (again, under the lock) and fire OnStart. -/
def startRunStep (s : QState) (id : TaskID) : QState × List Ev :=
  ({ s with tasks := (mapAdjust s.tasks id
      (fun t => { t with Status := .downloading })) },
   [Ev.start id])

/-- The OnProgress closure of TaskQueue.execute (queue.go): update the task
record and forward the event. -/
def progressStep (s : QState) (id : TaskID) (percent : ℚ) (speed : String)
    (isLive : Bool) : QState × List Ev :=
  ({ s with tasks := (mapAdjust s.tasks id
      (fun t => { t with Percent := percent, Speed := speed,
                         IsLive := isLive })) },
   [Ev.progress id percent speed isLive])

/-- The terminal event the driver classification produces for an outcome. -/
def classifyEv (id : TaskID) : Option GoErr → Ev
  | none => Ev.success id
  | some .canceled => Ev.stopped id
  | some (.other m) => Ev.failed id m

/-- Closing phase of TaskQueue.execute (queue.go): remove the id from the
active map, classify the Download outcome (nil, context.Canceled, other)
into the task status update and the terminal callback, then one tryRun
step. -/
def finishStep (s : QState) (id : TaskID) (err : Option GoErr) :
    QState × List Ev :=
  let s1 : QState := { s with active := s.active.filter (fun x => x ≠ id) }
  match err with
  | none =>
    (tryRunStep { s1 with tasks := (mapAdjust s1.tasks id
        (fun t => { t with Status := .success, Percent := 100 })) },
     [Ev.success id])
  | some .canceled =>
    (tryRunStep { s1 with tasks := (mapAdjust s1.tasks id
        (fun t => { t with Status := .stopped })) },
     [Ev.stopped id])
  | some (.other m) =>
    (tryRunStep { s1 with tasks := (mapAdjust s1.tasks id
        (fun t => { t with Status := .failed, Error := m })) },
     [Ev.failed id m])

/-- The operations of the queue state machine. -/
inductive Op where
  | enqueue (p : DownloadParams)
  | stop (id : TaskID)
  | setMaxRunner (n : ℤ)
  | startRun (id : TaskID)
  | progress (id : TaskID) (percent : ℚ) (speed : String) (isLive : Bool)
  | message (id : TaskID) (msg : String)
  | finish (id : TaskID) (err : Option GoErr)
  deriving DecidableEq, Repr

/-- One transition: public operations always apply; driver phases are valid
only while the id is active (the driver goroutine exists exactly then). -/
def stepOp (s : QState) : Op → Option (QState × List Ev)
  | .enqueue p => some ((enqueueStep s p).1, [])
  | .stop _ => some (s, [])
  | .setMaxRunner n => some (setMaxRunnerStep s n, [])
  | .startRun id =>
    if id ∈ s.active then some (startRunStep s id) else none
  | .progress id percent speed isLive =>
    if id ∈ s.active then some (progressStep s id percent speed isLive)
    else none
  | .message id m =>
    if id ∈ s.active then some (s, [Ev.message id m]) else none
  | .finish id err =>
    if id ∈ s.active then some (finishStep s id err) else none

/-- Run a sequence of operations, accumulating the emitted events. -/
def runOps : QState → List Op → Option (QState × List Ev)
  | s, [] => some (s, [])
  | s, op :: rest =>
    match stepOp s op with
    | none => none
    | some (s1, evs) =>
      match runOps s1 rest with
      | none => none
      | some (s2, evs2) => some (s2, evs ++ evs2)

/-- Lookup after a map insert. -/
theorem mapInsert_lookup {α : Type} (m : List (TaskID × α)) (k id : TaskID)
    (v : α) :
    mapLookup (mapInsert m k v) id =
      if id = k then some v else mapLookup m id := by
  induction m with
  | nil =>
    by_cases h : id = k
    · subst h; simp [mapInsert, mapLookup]
    · have h2 : ¬ k = id := fun e => h (Eq.symm e)
      simp [mapInsert, mapLookup, h, h2]
  | cons kv rest ih =>
    obtain ⟨k1, v1⟩ := kv
    by_cases h1 : k1 = k
    · subst h1
      by_cases h2 : id = k1
      · subst h2; simp [mapInsert, mapLookup]
      · have h3 : ¬ k1 = id := fun e => h2 (Eq.symm e)
        simp [mapInsert, mapLookup, h2, h3]
    · by_cases h2 : id = k1
      · subst h2
        simp [mapInsert, mapLookup, h1]
      · have h3 : ¬ k1 = id := fun e => h2 (Eq.symm e)
        simp [mapInsert, mapLookup, h1, h2, h3, ih]

/-- Lookup after a pointwise map update. -/
theorem mapAdjust_lookup {α : Type} (m : List (TaskID × α)) (k id : TaskID)
    (f : α → α) :
    mapLookup (mapAdjust m k f) id =
      if id = k then (mapLookup m id).map f else mapLookup m id := by
  induction m with
  | nil => by_cases h : id = k <;> simp [mapAdjust, mapLookup, h]
  | cons kv rest ih =>
    obtain ⟨k1, v1⟩ := kv
    by_cases h1 : k1 = k
    · subst h1
      by_cases h2 : id = k1
      · subst h2; simp [mapAdjust, mapLookup, ih]
      · have h3 : ¬ k1 = id := fun e => h2 (Eq.symm e)
        simp [mapAdjust, mapLookup, h2, h3, ih]
    · by_cases h2 : id = k1
      · subst h2
        have h3 : ¬ id = k := h1
        simp [mapAdjust, mapLookup, h1, h3]
      · have h3 : ¬ k1 = id := fun e => h2 (Eq.symm e)
        simp [mapAdjust, mapLookup, h1, h2, h3, ih]

/-- Membership in the key-set insertion. -/
theorem mem_activeInsert {a : List TaskID} {x id : TaskID} :
    x ∈ activeInsert a id ↔ x ∈ a ∨ x = id := by
  unfold activeInsert
  split
  · rename_i h
    constructor
    · exact fun hx => Or.inl hx
    · rintro (hx | rfl)
      · exact hx
      · exact h
  · simp [List.mem_append]

/-- Inserting an absent key appends it. -/
theorem activeInsert_not_mem {a : List TaskID} {id : TaskID} (h : id ∉ a) :
    activeInsert a id = a ++ [id] := if_neg h

/-- The insertion grows the key set by at most one. -/
theorem activeInsert_length_le (a : List TaskID) (id : TaskID) :
    (activeInsert a id).length ≤ a.length + 1 := by
  unfold activeInsert
  split <;> simp

/-- tryRun never changes the cap. -/
theorem tryRunStep_maxRunner (s : QState) :
    (tryRunStep s).maxRunner = s.maxRunner := by
  obtain ⟨mr, qu, ac, tk⟩ := s
  unfold tryRunStep
  split
  · cases qu <;> rfl
  · rfl

/-- tryRun preserves the capacity bound. -/
theorem tryRunStep_cap {s : QState}
    (h : (s.active.length : ℤ) ≤ s.maxRunner) :
    ((tryRunStep s).active.length : ℤ) ≤ (tryRunStep s).maxRunner := by
  obtain ⟨mr, qu, ac, tk⟩ := s
  unfold tryRunStep
  dsimp only at h ⊢
  split
  · rename_i hlt
    cases qu with
    | nil => exact h
    | cons t rest =>
      dsimp only
      have h1 := activeInsert_length_le ac t.ID
      omega
  · exact h

/-- tryRun never removes an active id. -/
theorem tryRunStep_active_super {s : QState} {x : TaskID}
    (h : x ∈ s.active) : x ∈ (tryRunStep s).active := by
  unfold tryRunStep
  split
  · rcases s.queue with _ | ⟨t, rest⟩
    · exact h
    · exact mem_activeInsert.mpr (Or.inl h)
  · exact h

/-- Example params used by the queue scenarios. -/
def qpA : DownloadParams :=
  ⟨"A", "m3u8", "http://a/x.m3u8", "/out", "a", false, [], "", ""⟩

/-- Example params used by the queue scenarios. -/
def qpB : DownloadParams :=
  ⟨"B", "m3u8", "http://b/x.m3u8", "/out", "b", false, [], "", ""⟩

/-- Reachability of queue states under the source operations, where the cap
is initialised non-negatively and SetMaxRunner is never called with a value
below the current active count. -/
inductive CapReach : QState → Prop where
  | init : ∀ n : ℤ, 0 ≤ n → CapReach (newTaskQueue n)
  | step : ∀ (s : QState) (op : Op) (s1 : QState) (evs : List Ev),
      CapReach s → stepOp s op = some (s1, evs) →
      (∀ n, op = Op.setMaxRunner n → (s.active.length : ℤ) ≤ n) →
      CapReach s1

/-- The capacity bound is inductive over restricted reachability. -/
theorem capInv (s : QState) (h : CapReach s) :
    (s.active.length : ℤ) ≤ s.maxRunner := by
  induction h with
  | init n hn => simpa [newTaskQueue] using hn
  | step s op s1 evs hr hstep hguard ih =>
    cases op with
    | enqueue p =>
      simp only [stepOp, Option.some.injEq, Prod.mk.injEq] at hstep
      obtain ⟨rfl, rfl⟩ := hstep
      unfold enqueueStep
      split
      · rename_i hlt
        dsimp only
        have h1 := activeInsert_length_le s.active p.ID
        omega
      · exact ih
    | stop id =>
      simp only [stepOp, Option.some.injEq, Prod.mk.injEq] at hstep
      obtain ⟨rfl, rfl⟩ := hstep
      exact ih
    | setMaxRunner n =>
      simp only [stepOp, Option.some.injEq, Prod.mk.injEq] at hstep
      obtain ⟨rfl, rfl⟩ := hstep
      have hg : ((({ s with maxRunner := n } : QState)).active.length : ℤ)
          ≤ ({ s with maxRunner := n } : QState).maxRunner := by
        dsimp only
        exact hguard n rfl
      exact tryRunStep_cap hg
    | startRun id =>
      simp only [stepOp] at hstep
      split at hstep
      · simp only [Option.some.injEq] at hstep
        have h1 : (startRunStep s id).1 = s1 := congrArg Prod.fst hstep
        rw [← h1]
        dsimp [startRunStep]
        exact ih
      · exact absurd hstep (by simp)
    | progress id percent speed isLive =>
      simp only [stepOp] at hstep
      split at hstep
      · simp only [Option.some.injEq] at hstep
        have h1 : (progressStep s id percent speed isLive).1 = s1 :=
          congrArg Prod.fst hstep
        rw [← h1]
        dsimp [progressStep]
        exact ih
      · exact absurd hstep (by simp)
    | message id m =>
      simp only [stepOp] at hstep
      split at hstep
      · simp only [Option.some.injEq, Prod.mk.injEq] at hstep
        rw [← hstep.1]
        exact ih
      · exact absurd hstep (by simp)
    | finish id err =>
      simp only [stepOp] at hstep
      split at hstep
      · simp only [Option.some.injEq] at hstep
        have h1 : (finishStep s id err).1 = s1 := congrArg Prod.fst hstep
        rw [← h1]
        have hfil : (((s.active.filter (fun x => x ≠ id)).length : ℤ))
            ≤ s.maxRunner := by
          have := List.length_filter_le (fun x => x ≠ id) s.active
          omega
        cases err with
        | none =>
          dsimp [finishStep]
          exact tryRunStep_cap (by dsimp; exact hfil)
        | some e =>
          cases e with
          | canceled =>
            dsimp [finishStep]
            exact tryRunStep_cap (by dsimp; exact hfil)
          | other m =>
            dsimp [finishStep]
            exact tryRunStep_cap (by dsimp; exact hfil)
      · exact absurd hstep (by simp)

/-- C3 counterexample: with cap 2, two admitted tasks and a subsequent
SetMaxRunner 1, the reachable state has two active tasks but cap 1, so the
bound does not hold at all instants. -/
theorem C3_counterexample :
    (runOps (newTaskQueue 2)
        [Op.enqueue qpA, Op.enqueue qpB, Op.setMaxRunner 1]).map
      (fun r => ((r.1.active.length : ℤ), r.1.maxRunner)) = some (2, 1) ∧
    ¬ ((2 : ℤ) ≤ 1) :=
  ⟨rfl, by decide⟩

/-- C3 (amended): the bound between the active count and MaxRunner holds in
every reachable state provided the cap starts non-negative and SetMaxRunner
is never called with a value below the current active count (lowering it
further breaks the inequality, as admission does not preempt); SetMaxRunner
never removes an active task; and when the active count has reached the cap,
Enqueue admits nothing — the task is queued as pending. -/
theorem C3_theorem :
    (∀ s : QState, CapReach s → (s.active.length : ℤ) ≤ s.maxRunner) ∧
    (∀ (s : QState) (n : ℤ), ∀ x ∈ s.active,
      x ∈ (setMaxRunnerStep s n).active) ∧
    (∀ (s : QState) (p : DownloadParams),
      ¬ ((s.active.length : ℤ) < s.maxRunner) →
      (enqueueStep s p).1.active = s.active ∧
      (enqueueStep s p).2 = TaskStatus.pending) := by
  refine ⟨capInv, ?_, ?_⟩
  · intro s n x hx
    exact tryRunStep_active_super hx
  · intro s p h
    unfold enqueueStep
    rw [if_neg h]
    exact ⟨rfl, rfl⟩

/-- Witness for C3: the amended theorem applied to concrete states. -/
theorem C3_witness :
    (((newTaskQueue 1).active.length : ℤ) ≤ (newTaskQueue 1).maxRunner) ∧
    "A" ∈ (setMaxRunnerStep ⟨1, [], ["A"], []⟩ 0).active ∧
    (enqueueStep ⟨0, [], ["A"], []⟩ qpB).1.active = ["A"] ∧
    (enqueueStep ⟨0, [], ["A"], []⟩ qpB).2 = TaskStatus.pending :=
  ⟨C3_theorem.1 _ (CapReach.init 1 (by decide)),
   C3_theorem.2.1 ⟨1, [], ["A"], []⟩ 0 "A" (by decide),
   (C3_theorem.2.2 ⟨0, [], ["A"], []⟩ qpB (by decide)).1,
   (C3_theorem.2.2 ⟨0, [], ["A"], []⟩ qpB (by decide)).2⟩

/-- tryRun preserves the disjointness/uniqueness of pending and active
ids. -/
theorem tryRunStep_nodup {s : QState}
    (h : (queueIDs s ++ s.active).Nodup) :
    (queueIDs (tryRunStep s) ++ (tryRunStep s).active).Nodup := by
  obtain ⟨mr, qu, ac, tk⟩ := s
  unfold queueIDs at h ⊢
  unfold tryRunStep
  dsimp only at h ⊢
  split
  · cases qu with
    | nil => exact h
    | cons t rest =>
      dsimp only
      rw [List.map_cons, List.cons_append, List.nodup_cons] at h
      obtain ⟨hnotin, hnd⟩ := h
      have hta : t.ID ∉ ac := fun hm => hnotin (List.mem_append_right _ hm)
      rw [activeInsert_not_mem hta, ← List.append_assoc]
      have : ((rest.map (fun p => p.ID) ++ ac) ++ t.ID :: []).Nodup := by
        rw [List.nodup_middle]
        rw [List.append_nil]
        exact List.nodup_cons.mpr ⟨hnotin, hnd⟩
      simpa using this
  · exact h

/-- Enqueue of a genuinely new id preserves the uniqueness invariant. -/
theorem enqueueStep_nodup {s : QState} {p : DownloadParams}
    (h : (queueIDs s ++ s.active).Nodup)
    (hq : p.ID ∉ queueIDs s) (ha : p.ID ∉ s.active) :
    (queueIDs (enqueueStep s p).1 ++ (enqueueStep s p).1.active).Nodup := by
  unfold enqueueStep
  split
  · dsimp only [queueIDs]
    rw [activeInsert_not_mem ha, ← List.append_assoc]
    have : ((s.queue.map (fun p => p.ID) ++ s.active) ++ p.ID :: []).Nodup := by
      rw [List.nodup_middle, List.append_nil, List.nodup_cons]
      refine ⟨fun hm => ?_, h⟩
      rcases List.mem_append.mp hm with hm | hm
      · exact hq hm
      · exact ha hm
    simpa using this
  · dsimp only [queueIDs]
    rw [List.map_append]
    have : (s.queue.map (fun p => p.ID) ++ p.ID :: s.active).Nodup := by
      rw [List.nodup_middle, List.nodup_cons]
      refine ⟨fun hm => ?_, h⟩
      rcases List.mem_append.mp hm with hm | hm
      · exact hq hm
      · exact ha hm
    simpa using this

/-- Reachability of queue states when Enqueue never reuses an id that is
still pending or active. -/
inductive NoReuseReach : QState → Prop where
  | init : ∀ n : ℤ, NoReuseReach (newTaskQueue n)
  | step : ∀ (s : QState) (op : Op) (s1 : QState) (evs : List Ev),
      NoReuseReach s → stepOp s op = some (s1, evs) →
      (∀ p, op = Op.enqueue p → p.ID ∉ queueIDs s ∧ p.ID ∉ s.active) →
      NoReuseReach s1

/-- The uniqueness invariant is inductive over reuse-free reachability. -/
theorem noReuseInv (s : QState) (h : NoReuseReach s) :
    (queueIDs s ++ s.active).Nodup := by
  induction h with
  | init n => simp [newTaskQueue, queueIDs]
  | step s op s1 evs hr hstep hguard ih =>
    cases op with
    | enqueue p =>
      simp only [stepOp, Option.some.injEq, Prod.mk.injEq] at hstep
      obtain ⟨rfl, rfl⟩ := hstep
      obtain ⟨hq, ha⟩ := hguard p rfl
      exact enqueueStep_nodup ih hq ha
    | stop id =>
      simp only [stepOp, Option.some.injEq, Prod.mk.injEq] at hstep
      obtain ⟨rfl, rfl⟩ := hstep
      exact ih
    | setMaxRunner n =>
      simp only [stepOp, Option.some.injEq, Prod.mk.injEq] at hstep
      obtain ⟨rfl, rfl⟩ := hstep
      exact tryRunStep_nodup (s := { s with maxRunner := n }) ih
    | startRun id =>
      simp only [stepOp] at hstep
      split at hstep
      · simp only [Option.some.injEq] at hstep
        have h1 : (startRunStep s id).1 = s1 := congrArg Prod.fst hstep
        rw [← h1]
        exact ih
      · exact absurd hstep (by simp)
    | progress id percent speed isLive =>
      simp only [stepOp] at hstep
      split at hstep
      · simp only [Option.some.injEq] at hstep
        have h1 : (progressStep s id percent speed isLive).1 = s1 :=
          congrArg Prod.fst hstep
        rw [← h1]
        exact ih
      · exact absurd hstep (by simp)
    | message id m =>
      simp only [stepOp] at hstep
      split at hstep
      · simp only [Option.some.injEq, Prod.mk.injEq] at hstep
        rw [← hstep.1]
        exact ih
      · exact absurd hstep (by simp)
    | finish id err =>
      simp only [stepOp] at hstep
      split at hstep
      · simp only [Option.some.injEq] at hstep
        have h1 : (finishStep s id err).1 = s1 := congrArg Prod.fst hstep
        rw [← h1]
        have hfil : (queueIDs s ++
            s.active.filter (fun x => x ≠ id)).Nodup := by
          refine List.Nodup.sublist ?_ ih
          exact (List.filter_sublist s.active).append_left (queueIDs s)
        cases err with
        | none => exact tryRunStep_nodup hfil
        | some e =>
          cases e with
          | canceled => exact tryRunStep_nodup hfil
          | other m => exact tryRunStep_nodup hfil
      · exact absurd hstep (by simp)

/-- Inserting preserves presence of any key in the map. -/
theorem lookup_isSome_mapInsert {α : Type} {m : List (TaskID × α)}
    {id : TaskID} (k : TaskID) (v : α)
    (h : (mapLookup m id).isSome = true) :
    (mapLookup (mapInsert m k v) id).isSome = true := by
  rw [mapInsert_lookup]
  split
  · rfl
  · exact h

/-- Pointwise updates never change which keys are present. -/
theorem lookup_isSome_mapAdjust {α : Type} (m : List (TaskID × α))
    (k id : TaskID) (f : α → α) :
    (mapLookup (mapAdjust m k f) id).isSome = (mapLookup m id).isSome := by
  rw [mapAdjust_lookup]
  split
  · simp
  · rfl

/-- tryRun preserves presence in the task-info map. -/
theorem tryRunStep_tasks_isSome {s : QState} {id : TaskID}
    (h : (mapLookup s.tasks id).isSome = true) :
    (mapLookup (tryRunStep s).tasks id).isSome = true := by
  obtain ⟨mr, qu, ac, tk⟩ := s
  unfold tryRunStep
  dsimp only at h ⊢
  split
  · cases qu with
    | nil => exact h
    | cons t rest =>
      dsimp only
      rw [lookup_isSome_mapAdjust]
      exact h
  · exact h

/-- No operation ever evicts an id from the task-info map. -/
theorem taskRetention : ∀ (s : QState) (op : Op) (s1 : QState)
    (evs : List Ev) (id : TaskID),
    stepOp s op = some (s1, evs) →
    (mapLookup s.tasks id).isSome = true →
    (mapLookup s1.tasks id).isSome = true := by
  intro s op s1 evs id hstep h
  cases op with
  | enqueue p =>
    simp only [stepOp, Option.some.injEq, Prod.mk.injEq] at hstep
    obtain ⟨rfl, rfl⟩ := hstep
    unfold enqueueStep
    split
    · dsimp only
      rw [lookup_isSome_mapAdjust]
      exact lookup_isSome_mapInsert _ _ h
    · dsimp only
      exact lookup_isSome_mapInsert _ _ h
  | stop i =>
    simp only [stepOp, Option.some.injEq, Prod.mk.injEq] at hstep
    obtain ⟨rfl, rfl⟩ := hstep
    exact h
  | setMaxRunner n =>
    simp only [stepOp, Option.some.injEq, Prod.mk.injEq] at hstep
    obtain ⟨rfl, rfl⟩ := hstep
    exact tryRunStep_tasks_isSome (s := { s with maxRunner := n }) h
  | startRun i =>
    simp only [stepOp] at hstep
    split at hstep
    · simp only [Option.some.injEq] at hstep
      have h1 : (startRunStep s i).1 = s1 := congrArg Prod.fst hstep
      rw [← h1]
      dsimp [startRunStep]
      rw [lookup_isSome_mapAdjust]
      exact h
    · exact absurd hstep (by simp)
  | progress i percent speed isLive =>
    simp only [stepOp] at hstep
    split at hstep
    · simp only [Option.some.injEq] at hstep
      have h1 : (progressStep s i percent speed isLive).1 = s1 :=
        congrArg Prod.fst hstep
      rw [← h1]
      dsimp [progressStep]
      rw [lookup_isSome_mapAdjust]
      exact h
    · exact absurd hstep (by simp)
  | message i m =>
    simp only [stepOp] at hstep
    split at hstep
    · simp only [Option.some.injEq, Prod.mk.injEq] at hstep
      rw [← hstep.1]
      exact h
    · exact absurd hstep (by simp)
  | finish i err =>
    simp only [stepOp] at hstep
    split at hstep
    · simp only [Option.some.injEq] at hstep
      have h1 : (finishStep s i err).1 = s1 := congrArg Prod.fst hstep
      rw [← h1]
      cases err with
      | none =>
        dsimp [finishStep]
        refine tryRunStep_tasks_isSome ?_
        dsimp only
        rw [lookup_isSome_mapAdjust]
        exact h
      | some e =>
        cases e with
        | canceled =>
          dsimp [finishStep]
          refine tryRunStep_tasks_isSome ?_
          dsimp only
          rw [lookup_isSome_mapAdjust]
          exact h
        | other m =>
          dsimp [finishStep]
          refine tryRunStep_tasks_isSome ?_
          dsimp only
          rw [lookup_isSome_mapAdjust]
          exact h
    · exact absurd hstep (by simp)

/-- The state reached by enqueueing the same params twice under cap 1. -/
def c4BadState : QState := ⟨1, [qpA], ["A"], [("A", initTaskInfo qpA)]⟩

/-- C4 counterexample: enqueueing an id that is already active (cap 1)
pushes the same id onto the pending queue, so the id sits in the pending
queue and the active set at the same instant. -/
theorem C4_counterexample :
    runOps (newTaskQueue 1) [Op.enqueue qpA, Op.enqueue qpA]
      = some (c4BadState, []) ∧
    "A" ∈ c4BadState.active ∧
    "A" ∈ queueIDs c4BadState ∧
    ¬ (queueIDs c4BadState ++ c4BadState.active).Nodup :=
  ⟨rfl, by decide, by decide, by decide⟩

/-- C4 (amended): when Enqueue is never called with an id that is still
pending or active, every reachable state keeps the pending ids and active
ids pairwise distinct (each id in at most one of the two); and
unconditionally, no operation ever evicts an id from the task-info map. -/
theorem C4_theorem :
    (∀ s : QState, NoReuseReach s → (queueIDs s ++ s.active).Nodup) ∧
    (∀ (s : QState) (op : Op) (s1 : QState) (evs : List Ev) (id : TaskID),
      stepOp s op = some (s1, evs) →
      (mapLookup s.tasks id).isSome = true →
      (mapLookup s1.tasks id).isSome = true) :=
  ⟨noReuseInv, taskRetention⟩

/-- Witness for C4: concrete reachable state and a concrete retention
step. -/
theorem C4_witness :
    (queueIDs (newTaskQueue 2) ++ (newTaskQueue 2).active).Nodup ∧
    (mapLookup
        (enqueueStep ⟨1, [], [], [("A", initTaskInfo qpA)]⟩ qpB).1.tasks
        "A").isSome = true :=
  ⟨C4_theorem.1 _ (NoReuseReach.init 2),
   C4_theorem.2 ⟨1, [], [], [("A", initTaskInfo qpA)]⟩ (Op.enqueue qpB)
     (enqueueStep ⟨1, [], [], [("A", initTaskInfo qpA)]⟩ qpB).1 [] "A"
     rfl (by decide)⟩

/-- C10: stopping a task that is only pending (not active) returns the
task-not-found error and changes nothing — Stop consults only the active
map — and the pending task is still admitted later: when a driver finishes
and frees a slot, the tryRun step inside finish moves the pending head into
the active set. -/
theorem C10_theorem :
    (∀ (s : QState) (id : TaskID), id ∈ queueIDs s → id ∉ s.active →
      stopStep s id = .error "task not found" ∧
      stepOp s (Op.stop id) = some (s, [])) ∧
    (∀ (s : QState) (p : DownloadParams) (rest : List DownloadParams)
        (j : TaskID) (err : Option GoErr),
      s.queue = p :: rest → j ∈ s.active →
      ((s.active.filter (fun x => x ≠ j)).length : ℤ) < s.maxRunner →
      p.ID ∈ (finishStep s j err).1.active) := by
  constructor
  · intro s id _ h2
    refine ⟨?_, rfl⟩
    unfold stopStep
    rw [if_neg h2]
  · intro s p rest j err hq hj hcap
    have key : ∀ t : List (TaskID × TaskInfo),
        p.ID ∈ (tryRunStep
          { s with active := s.active.filter (fun x => x ≠ j),
                   tasks := t }).active := by
      intro t
      unfold tryRunStep
      dsimp only
      rw [if_pos hcap, hq]
      dsimp only
      exact mem_activeInsert.mpr (Or.inr rfl)
    cases err with
    | none => exact key _
    | some e =>
      cases e with
      | canceled => exact key _
      | other m => exact key _

/-- Witness for C10: a concrete state with A active and B pending. -/
theorem C10_witness :
    (stopStep ⟨1, [qpB], ["A"], []⟩ "B" = .error "task not found" ∧
     stepOp ⟨1, [qpB], ["A"], []⟩ (Op.stop "B")
       = some (⟨1, [qpB], ["A"], []⟩, [])) ∧
    "B" ∈ (finishStep ⟨1, [qpB], ["A"], []⟩ "A" none).1.active :=
  ⟨C10_theorem.1 ⟨1, [qpB], ["A"], []⟩ "B" (by decide) (by decide),
   C10_theorem.2 ⟨1, [qpB], ["A"], []⟩ qpB [] "A" none rfl (by decide)
     (by decide)⟩

/-- When an id is not pending, tryRun leaves its task record untouched. -/
theorem tryRunStep_tasks_lookup {s : QState} {id : TaskID}
    (h : id ∉ queueIDs s) :
    mapLookup (tryRunStep s).tasks id = mapLookup s.tasks id := by
  obtain ⟨mr, qu, ac, tk⟩ := s
  unfold queueIDs at h
  unfold tryRunStep
  dsimp only at h ⊢
  split
  · cases qu with
    | nil => rfl
    | cons t rest =>
      dsimp only
      have hne : ¬ id = t.ID := by
        intro e
        exact h (by rw [e]; exact List.mem_cons_self _ _)
      rw [mapAdjust_lookup, if_neg hne]
  · rfl

/-- tryRun never involves an id that is neither active nor pending. -/
theorem tryRunStep_not_mem {s : QState} {id : TaskID}
    (ha : id ∉ s.active) (hq : id ∉ queueIDs s) :
    id ∉ (tryRunStep s).active ∧ id ∉ queueIDs (tryRunStep s) := by
  obtain ⟨mr, qu, ac, tk⟩ := s
  unfold queueIDs at hq ⊢
  unfold tryRunStep
  dsimp only at ha hq ⊢
  split
  · cases qu with
    | nil => exact ⟨ha, hq⟩
    | cons t rest =>
      dsimp only at hq ⊢
      rw [List.map_cons] at hq
      constructor
      · intro hm
        rcases mem_activeInsert.mp hm with hm | hm
        · exact ha hm
        · exact hq (hm ▸ List.mem_cons_self _ _)
      · intro hm
        exact hq (List.mem_cons_of_mem _ hm)
  · exact ⟨ha, hq⟩

/-- An uninvolved id stays uninvolved across one step, and the step emits no
event owned by it. -/
theorem notInvolved_step {s : QState} {id : TaskID} (op : Op)
    {s1 : QState} {evs : List Ev}
    (hstep : stepOp s op = some (s1, evs))
    (ha : id ∉ s.active) (hq : id ∉ queueIDs s)
    (hop : ∀ p, op = Op.enqueue p → p.ID ≠ id) :
    (id ∉ s1.active ∧ id ∉ queueIDs s1) ∧ ∀ ev ∈ evs, ev.owner ≠ id := by
  cases op with
  | enqueue p =>
    simp only [stepOp, Option.some.injEq, Prod.mk.injEq] at hstep
    obtain ⟨rfl, rfl⟩ := hstep
    have hpid : p.ID ≠ id := hop p rfl
    refine ⟨?_, by simp⟩
    unfold enqueueStep
    split
    · dsimp only [queueIDs] at hq ⊢
      refine ⟨?_, hq⟩
      intro hm
      rcases mem_activeInsert.mp hm with hm | hm
      · exact ha hm
      · exact hpid hm.symm
    · dsimp only [queueIDs] at hq ⊢
      refine ⟨ha, ?_⟩
      rw [List.map_append]
      intro hm
      rcases List.mem_append.mp hm with hm | hm
      · exact hq hm
      · simp only [List.map_cons, List.map_nil, List.mem_singleton] at hm
        exact hpid hm.symm
  | stop i =>
    simp only [stepOp, Option.some.injEq, Prod.mk.injEq] at hstep
    obtain ⟨rfl, rfl⟩ := hstep
    exact ⟨⟨ha, hq⟩, by simp⟩
  | setMaxRunner n =>
    simp only [stepOp, Option.some.injEq, Prod.mk.injEq] at hstep
    obtain ⟨rfl, rfl⟩ := hstep
    exact ⟨tryRunStep_not_mem (s := { s with maxRunner := n }) ha hq,
           by simp⟩
  | startRun i =>
    simp only [stepOp] at hstep
    split at hstep
    · rename_i hi
      simp only [Option.some.injEq] at hstep
      have h1 : (startRunStep s i).1 = s1 := congrArg Prod.fst hstep
      have h2 : (startRunStep s i).2 = evs := congrArg Prod.snd hstep
      rw [← h1, ← h2]
      have hne : i ≠ id := fun e => ha (e ▸ hi)
      exact ⟨⟨ha, hq⟩, by simp [startRunStep, Ev.owner, hne]⟩
    · exact absurd hstep (by simp)
  | progress i percent speed isLive =>
    simp only [stepOp] at hstep
    split at hstep
    · rename_i hi
      simp only [Option.some.injEq] at hstep
      have h1 : (progressStep s i percent speed isLive).1 = s1 :=
        congrArg Prod.fst hstep
      have h2 : (progressStep s i percent speed isLive).2 = evs :=
        congrArg Prod.snd hstep
      rw [← h1, ← h2]
      have hne : i ≠ id := fun e => ha (e ▸ hi)
      exact ⟨⟨ha, hq⟩, by simp [progressStep, Ev.owner, hne]⟩
    · exact absurd hstep (by simp)
  | message i m =>
    simp only [stepOp] at hstep
    split at hstep
    · rename_i hi
      simp only [Option.some.injEq, Prod.mk.injEq] at hstep
      obtain ⟨h1, h2⟩ := hstep
      rw [← h1, ← h2]
      have hne : i ≠ id := fun e => ha (e ▸ hi)
      exact ⟨⟨ha, hq⟩, by simp [Ev.owner, hne]⟩
    · exact absurd hstep (by simp)
  | finish i err =>
    simp only [stepOp] at hstep
    split at hstep
    · rename_i hi
      simp only [Option.some.injEq] at hstep
      have h1 : (finishStep s i err).1 = s1 := congrArg Prod.fst hstep
      have h2 : (finishStep s i err).2 = evs := congrArg Prod.snd hstep
      rw [← h1, ← h2]
      have hne : i ≠ id := fun e => ha (e ▸ hi)
      have hafil : id ∉ s.active.filter (fun x => x ≠ i) :=
        fun hm => ha (List.mem_of_mem_filter hm)
      cases err with
      | none =>
        refine ⟨tryRunStep_not_mem hafil hq, ?_⟩
        simp [finishStep, Ev.owner, hne]
      | some e =>
        cases e with
        | canceled =>
          refine ⟨tryRunStep_not_mem hafil hq, ?_⟩
          simp [finishStep, Ev.owner, hne]
        | other m =>
          refine ⟨tryRunStep_not_mem hafil hq, ?_⟩
          simp [finishStep, Ev.owner, hne]
    · exact absurd hstep (by simp)

/-- An uninvolved id owns no event of any run that never enqueues it. -/
theorem notInvolved_run : ∀ (ops : List Op) (s : QState) (id : TaskID)
    (s1 : QState) (evs : List Ev),
    runOps s ops = some (s1, evs) →
    id ∉ s.active → id ∉ queueIDs s →
    (∀ p, Op.enqueue p ∈ ops → p.ID ≠ id) →
    ∀ ev ∈ evs, ev.owner ≠ id := by
  intro ops
  induction ops with
  | nil =>
    intro s id s1 evs hrun _ _ _
    simp only [runOps, Option.some.injEq, Prod.mk.injEq] at hrun
    rw [← hrun.2]
    simp
  | cons op rest ih =>
    intro s id s1 evs hrun ha hq hops
    simp only [runOps] at hrun
    rcases hs : stepOp s op with _ | ⟨s2, evs2⟩
    · rw [hs] at hrun; exact absurd hrun (by simp)
    · rw [hs] at hrun
      dsimp only at hrun
      rcases hr : runOps s2 rest with _ | ⟨s3, evs3⟩
      · rw [hr] at hrun; exact absurd hrun (by simp)
      · rw [hr] at hrun
        simp only [Option.some.injEq, Prod.mk.injEq] at hrun
        obtain ⟨hrun1, hrun2⟩ := hrun
        obtain ⟨⟨ha2, hq2⟩, hev2⟩ := notInvolved_step op hs ha hq
          (fun p hp => hops p (hp ▸ List.mem_cons_self _ _))
        have hev3 := ih s2 id s3 evs3 hr ha2 hq2
          (fun p hp => hops p (List.mem_cons_of_mem _ hp))
        intro ev hev
        rw [← hrun2] at hev
        rcases List.mem_append.mp hev with hm | hm
        · exact hev2 ev hm
        · exact hev3 ev hm

/-- Task-record lookup after the finish bookkeeping: the record of the
finished id is exactly the adjusted one, since the subsequent tryRun step
touches only a pending id. -/
theorem finishStep_tasks_lookup {s : QState} {id : TaskID}
    (f : TaskInfo → TaskInfo) (hq : id ∉ queueIDs s) :
    mapLookup (tryRunStep { s with
        active := s.active.filter (fun x => x ≠ id),
        tasks := mapAdjust s.tasks id f }).tasks id
      = (mapLookup s.tasks id).map f := by
  have h2 : id ∉ queueIDs ({ s with
      active := s.active.filter (fun x => x ≠ id),
      tasks := mapAdjust s.tasks id f } : QState) := hq
  rw [tryRunStep_tasks_lookup h2]
  dsimp only
  rw [mapAdjust_lookup, if_pos rfl]

/-- C6: when Download returns, the driver emits exactly one terminal
callback — success for a nil error (with the status set to success and the
percent forced to 100), stopped for a cancellation, failed for any other
error (with the status set to failed and the error message recorded) — and
afterwards no lifecycle event is ever emitted for that id again, as long as
the id is not re-enqueued. -/
theorem C6_theorem :
    (∀ (s : QState) (id : TaskID) (err : Option GoErr),
      (finishStep s id err).2 = [classifyEv id err]) ∧
    (∀ (s : QState) (id : TaskID) (err : Option GoErr) (info : TaskInfo),
      mapLookup s.tasks id = some info → id ∉ queueIDs s →
      ∃ info1, mapLookup (finishStep s id err).1.tasks id = some info1 ∧
        (match err with
         | none => info1.Status = TaskStatus.success ∧ info1.Percent = 100
         | some GoErr.canceled => info1.Status = TaskStatus.stopped
         | some (GoErr.other m) => info1.Status = TaskStatus.failed ∧
             info1.Error = m)) ∧
    (∀ (ops : List Op) (s : QState) (id : TaskID) (s1 : QState)
        (evs : List Ev),
      runOps s ops = some (s1, evs) → id ∉ s.active → id ∉ queueIDs s →
      (∀ p, Op.enqueue p ∈ ops → p.ID ≠ id) →
      ∀ ev ∈ evs, ev.owner ≠ id) := by
  refine ⟨?_, ?_, notInvolved_run⟩
  · intro s id err
    cases err with
    | none => rfl
    | some e => cases e <;> rfl
  · intro s id err info hlook hq
    cases err with
    | none =>
      dsimp only [finishStep]
      rw [finishStep_tasks_lookup _ hq, hlook]
      exact ⟨_, rfl, rfl, rfl⟩
    | some e =>
      cases e with
      | canceled =>
        dsimp only [finishStep]
        rw [finishStep_tasks_lookup _ hq, hlook]
        exact ⟨_, rfl, rfl⟩
      | other m =>
        dsimp only [finishStep]
        rw [finishStep_tasks_lookup _ hq, hlook]
        exact ⟨_, rfl, rfl, rfl⟩

/-- Witness for C6: a driver finishing the only active task. -/
theorem C6_witness :
    (finishStep ⟨1, [], ["A"], [("A", initTaskInfo qpA)]⟩ "A" none).2
      = [classifyEv "A" none] ∧
    (∃ info1,
      mapLookup (finishStep ⟨1, [], ["A"], [("A", initTaskInfo qpA)]⟩
          "A" none).1.tasks "A" = some info1 ∧
        info1.Status = TaskStatus.success ∧ info1.Percent = 100) ∧
    (∀ ev ∈ [Ev.start "A"], Ev.owner ev ≠ "B") :=
  ⟨C6_theorem.1 ⟨1, [], ["A"], [("A", initTaskInfo qpA)]⟩ "A" none,
   C6_theorem.2.1 ⟨1, [], ["A"], [("A", initTaskInfo qpA)]⟩ "A" none
     (initTaskInfo qpA) rfl (by decide),
   C6_theorem.2.2 [Op.startRun "A"] ⟨1, [], ["A"], []⟩ "B"
     ⟨1, [], ["A"], []⟩ [Ev.start "A"] rfl (by decide) (by decide)
     (fun p hp => absurd (List.mem_singleton.mp hp) (by simp))⟩

end Mediago
